import Mathlib

set_option maxRecDepth 8000

/-!
# A verification development for the `gist` command-line client (`main.go`)

The program resolves a token, collects file contents from standard input or
from the files named on the command line, marshals them into the JSON payload
of the gist API, sends one HTTP request and reports the answer.

Go strings are byte sequences, and they are modelled as such (`GoString`).
Everything the program obtains from outside (flags, environment, files,
network) is a field of `World`; a run of `main` is the list of the effects it
performs together with the way the process ends.
-/

namespace Gist

/-! ## Go strings -/

/-- A Go `string` (and a `[]byte`): a finite sequence of bytes. -/
abbrev GoString := List Nat

/-- UTF-8 encoding of one code point, as the Go compiler stores the characters
of a string literal. -/
def utf8EncodeChar (c : Nat) : GoString :=
  if c < 0x80 then [c]
  else if c < 0x800 then [0xC0 + c / 64, 0x80 + c % 64]
  else if c < 0x10000 then [0xE0 + c / 4096, 0x80 + c / 64 % 64, 0x80 + c % 64]
  else [0xF0 + c / 262144, 0x80 + c / 4096 % 64, 0x80 + c / 64 % 64, 0x80 + c % 64]

/-- Bytes of a sequence of characters. -/
def utf8EncodeChars : List Char → GoString
  | [] => []
  | c :: cs => utf8EncodeChar c.toNat ++ utf8EncodeChars cs

/-- The Go string denoted by a string literal of the source. -/
def str (s : String) : GoString := utf8EncodeChars s.data

/-- Rendering of an `int` by the verb `%d`. -/
def formatInt : Int → GoString
  | Int.ofNat n => (Nat.toDigits 10 n).map Char.toNat
  | Int.negSucc n => 45 :: (Nat.toDigits 10 (n + 1)).map Char.toNat

/-! ## Go maps with string keys -/

/-- A Go `map[string]β`: a list of bindings, one per key, in the order in which
the keys were first assigned. -/
abbrev GoMap (β : Type) := List (GoString × β)

namespace GoMap

/-- The keys of a map. -/
def keys {β : Type} (m : GoMap β) : List GoString := m.map Prod.fst

/-- The lookup `m[k]`, with `none` for an absent key. -/
def get? {β : Type} : GoMap β → GoString → Option β
  | [], _ => none
  | (k', v) :: rest, k => if k' = k then some v else get? rest k

/-- The assignment `m[k] = v`: replaces the binding of `k` if there is one and
adds a binding otherwise. -/
def set {β : Type} : GoMap β → GoString → β → GoMap β
  | [], k, v => [(k, v)]
  | (k', v') :: rest, k, v =>
    if k' = k then (k, v) :: rest else (k', v') :: set rest k v

end GoMap

/-! ## Data model (`main.go`, lines 23-51) -/

/-- The record `Flags`. -/
structure Flags where
  token : GoString
  description : GoString
  filename : GoString
  patch : GoString
  public : Bool

/-- A `time.Time`, represented by the text its `String` method yields, which is
all the program asks of it. -/
structure Time where
  text : GoString

/-- The record `Response`. -/
structure Response where
  ID : GoString
  URL : GoString
  ForksURL : GoString
  HTMLURL : GoString
  CreatedAt : Time

/-- The record `File`. -/
structure File where
  Content : GoString
deriving DecidableEq

/-- The record `PostData`. -/
structure PostData where
  Description : GoString
  Public : Bool
  Files : GoMap File
deriving DecidableEq

/-! ## UTF-8 as `encoding/json` sees it -/

/-- The constant `utf8.RuneError`, the replacement character U+FFFD. -/
def RuneError : Nat := 0xFFFD

/-- Smallest second byte that may follow the first byte `b0` of a sequence of
three or four bytes. -/
def secondLo (b0 : Nat) : Nat :=
  if b0 = 0xE0 then 0xA0 else if b0 = 0xF0 then 0x90 else 0x80

/-- Largest second byte that may follow the first byte `b0` of a sequence of
three or four bytes. -/
def secondHi (b0 : Nat) : Nat :=
  if b0 = 0xED then 0x9F else if b0 = 0xF4 then 0x8F else 0xBF

/-- Whether `b` is a continuation byte, `0x80` to `0xBF`. -/
def isCont (b : Nat) : Bool := decide (0x80 ≤ b ∧ b ≤ 0xBF)

/-- The function `utf8.DecodeRuneInString`: the first rune of `s` and its width
in bytes; an encoding that is invalid yields `(RuneError, 1)` and the empty
string `(RuneError, 0)`. -/
def DecodeRuneInString : GoString → Nat × Nat
  | [] => (RuneError, 0)
  | b0 :: rest =>
    if b0 < 0x80 then (b0, 1)
    else if b0 < 0xC2 then (RuneError, 1)
    else if b0 < 0xE0 then
      match rest with
      | b1 :: _ =>
        if isCont b1 then (b0 % 32 * 64 + b1 % 64, 2) else (RuneError, 1)
      | _ => (RuneError, 1)
    else if b0 < 0xF0 then
      match rest with
      | b1 :: b2 :: _ =>
        if secondLo b0 ≤ b1 ∧ b1 ≤ secondHi b0 ∧ isCont b2 then
          (b0 % 16 * 4096 + b1 % 64 * 64 + b2 % 64, 3)
        else (RuneError, 1)
      | _ => (RuneError, 1)
    else if b0 < 0xF5 then
      match rest with
      | b1 :: b2 :: b3 :: _ =>
        if secondLo b0 ≤ b1 ∧ b1 ≤ secondHi b0 ∧ isCont b2 ∧ isCont b3 then
          (b0 % 8 * 262144 + b1 % 64 * 4096 + b2 % 64 * 64 + b3 % 64, 4)
        else (RuneError, 1)
      | _ => (RuneError, 1)
    else (RuneError, 1)

/-- The loop of the string encoder of `encoding/json`, with `fuel` steps left:
a byte at which no valid rune starts is replaced by U+FFFD, every other rune is
kept as it is. -/
def coerceLoop : Nat → GoString → GoString
  | 0, _ => []
  | _ + 1, [] => []
  | fuel + 1, b :: rest =>
    let r := DecodeRuneInString (b :: rest)
    if r.1 = RuneError ∧ r.2 = 1 then
      utf8EncodeChar RuneError ++ coerceLoop fuel rest
    else
      (b :: rest).take r.2 ++ coerceLoop fuel ((b :: rest).drop r.2)

/-- The text that `encoding/json` writes for the Go string `s`: "String values
encode as JSON strings coerced to valid UTF-8, replacing invalid bytes with the
Unicode replacement rune". -/
def toValidUTF8 (s : GoString) : GoString := coerceLoop s.length s

/-- Well-formed UTF-8 byte sequences, following the table of the Unicode
standard (one to four bytes, no overlong forms, no surrogates, at most
U+10FFFF). -/
def validUTF8 : GoString → Bool
  | [] => true
  | b0 :: rest =>
    if b0 < 0x80 then validUTF8 rest
    else match rest with
      | [] => false
      | b1 :: rest1 =>
        if 0xC2 ≤ b0 ∧ b0 ≤ 0xDF then isCont b1 && validUTF8 rest1
        else match rest1 with
          | [] => false
          | b2 :: rest2 =>
            if 0xE0 ≤ b0 ∧ b0 ≤ 0xEF then
              decide (secondLo b0 ≤ b1 ∧ b1 ≤ secondHi b0) && isCont b2 && validUTF8 rest2
            else match rest2 with
              | [] => false
              | b3 :: rest3 =>
                decide (0xF0 ≤ b0 ∧ b0 ≤ 0xF4) &&
                  decide (secondLo b0 ≤ b1 ∧ b1 ≤ secondHi b0) &&
                  isCont b2 && isCont b3 && validUTF8 rest3

/-! ## JSON values and `json.Marshal` -/

/-- A JSON value. The body of the request is represented by the value that
`json.Marshal` serialises; the layout of the text (escapes, spacing) is left
to the library. -/
inductive Json where
  | null : Json
  | bool (b : Bool) : Json
  | number (n : Int) : Json
  | string (s : GoString) : Json
  | array (items : List Json) : Json
  | object (members : List (GoString × Json)) : Json

/-- Bytewise order of Go strings, `a <= b`. -/
def bytesLE : GoString → GoString → Bool
  | [], _ => true
  | _ :: _, [] => false
  | a :: as, b :: bs => decide (a < b) || (decide (a = b) && bytesLE as bs)

/-- The bindings of a map in the order of their keys, as `json.Marshal` writes
them. -/
def sortKeys {β : Type} (m : GoMap β) : GoMap β :=
  m.insertionSort (fun x y => bytesLE x.1 y.1 = true)

/-- The JSON value of a Go string. -/
def marshalString (s : GoString) : Json := Json.string (toValidUTF8 s)

/-- The JSON value of a `File`: one field, named by the tag `json:"content"`. -/
def marshalFile (f : File) : Json :=
  Json.object [(str "content", marshalString f.Content)]

/-- The JSON value of a `map[string]File`: one member per key. -/
def marshalFiles (m : GoMap File) : Json :=
  Json.object ((sortKeys m).map (fun kv => (toValidUTF8 kv.1, marshalFile kv.2)))

/-- The call `json.Marshal(pd)` for a `PostData`: the fields in the order of
their declaration, named by their tags. No value of this type makes the
encoder fail. -/
def json.Marshal (pd : PostData) : Except GoString Json :=
  Except.ok (Json.object
    [ (str "description", marshalString pd.Description),
      (str "public", Json.bool pd.Public),
      (str "files", marshalFiles pd.Files) ])

/-- Reading a `File` back from a JSON object that has exactly the field
`content`. -/
def decodeFile : Json → Option File
  | Json.object [(k, Json.string c)] => if k = str "content" then some ⟨c⟩ else none
  | _ => none

/-- Reading the members of the object `files` back into the map `acc`, member
by member. -/
def decodeFilesInto : GoMap File → List (GoString × Json) → Option (GoMap File)
  | acc, [] => some acc
  | acc, (k, j) :: rest =>
    match decodeFile j with
    | some f => decodeFilesInto (acc.set k f) rest
    | none => none

/-- Reading a payload back from a JSON object that has exactly the fields
`description` (a string), `public` (a boolean) and `files` (an object of
files). -/
def decodePostData : Json → Option PostData
  | Json.object [(k1, Json.string d), (k2, Json.bool v), (k3, Json.object ms)] =>
    if k1 = str "description" ∧ k2 = str "public" ∧ k3 = str "files" then
      (decodeFilesInto [] ms).map (fun m => ⟨d, v, m⟩)
    else none
  | _ => none

/-! ## Library functions the program calls -/

/-- The loop of `path.Base` that strips trailing slashes (byte 47). -/
def stripTrailingSlashes (p : GoString) : GoString :=
  (p.reverse.dropWhile (fun b => decide (b = 47))).reverse

/-- The part of `p` after its last slash, all of `p` when it has none. -/
def afterLastSlash (p : GoString) : GoString :=
  (p.reverse.takeWhile (fun b => decide (b ≠ 47))).reverse

/-- The function `path.Base`: the last element of a path. -/
def path.Base (p : GoString) : GoString :=
  if p = [] then str "."
  else
    let q := afterLastSlash (stripTrailingSlashes p)
    if q = [] then str "/" else q

/-- The bytes that may occur in the name of a header field. -/
def validHeaderFieldByte (c : Nat) : Bool :=
  decide ((48 ≤ c ∧ c ≤ 57) ∨ (65 ≤ c ∧ c ≤ 90) ∨ (97 ≤ c ∧ c ≤ 122)) ||
    [33, 35, 36, 37, 38, 39, 42, 43, 45, 46, 94, 95, 96, 124, 126].contains c

/-- The case mapping of `textproto.CanonicalMIMEHeaderKey`: upper case at the
start and after a hyphen, lower case elsewhere. -/
def canonicalCase : Bool → GoString → GoString
  | _, [] => []
  | upper, c :: cs =>
    let c1 :=
      if upper = true ∧ 97 ≤ c ∧ c ≤ 122 then c - 32
      else if upper = false ∧ 65 ≤ c ∧ c ≤ 90 then c + 32
      else c
    c1 :: canonicalCase (decide (c1 = 45)) cs

/-- The function `textproto.CanonicalMIMEHeaderKey`; a key with a byte that is
not valid in a field name is returned unchanged. -/
def CanonicalMIMEHeaderKey (s : GoString) : GoString :=
  if s.all validHeaderFieldByte then canonicalCase true s else s

/-- The type `http.Header`, a `map[string][]string`. -/
abbrev Header := GoMap (List GoString)

/-- The method `Header.Add`: appends `value` to the values of the canonical
form of `key`. -/
def Header.Add (h : Header) (key value : GoString) : Header :=
  let k := CanonicalMIMEHeaderKey key
  GoMap.set h k ((GoMap.get? h k).getD [] ++ [value])

/-- An `http.Request`, as far as the program fills it in. -/
structure Request where
  Method : GoString
  URL : GoString
  Header : Header
  Body : Json

/-- An `http.Response`, as far as the program reads it: the status code and the
outcome of `ioutil.ReadAll(resp.Body)`. -/
structure HttpResponse where
  StatusCode : Int
  Body : Except GoString GoString

/-! ## The world of a run -/

/-- What a run of the program obtains from outside. An `Except.error` carries
the text of a Go `error`. -/
structure World where
  /-- The flags after `flag.Parse()`. -/
  flags : Flags
  /-- The positional arguments `flag.Args()`. -/
  args : List GoString
  /-- The variable `gistToken`, `os.Getenv("GIST_TOKEN")`. -/
  gistToken : GoString
  /-- The variable `githubToken`, `os.Getenv("GITHUB_TOKEN")`. -/
  githubToken : GoString
  /-- The outcome of `ioutil.ReadAll(os.Stdin)`. -/
  stdin : Except GoString GoString
  /-- The outcome of `ioutil.ReadFile` for each path. -/
  readFile : GoString → Except GoString GoString
  /-- The error, if any, with which `http.NewRequest` rejects a method and a
  URL. -/
  newRequestError : GoString → GoString → Option GoString
  /-- The outcome of `client.Do` for each request. -/
  roundTrip : Request → Except GoString HttpResponse
  /-- The record that `json.Unmarshal(body, &respdata)` leaves in `respdata`,
  whether or not it reports an error. -/
  unmarshal : GoString → Response

/-- The effects of a run, in the order in which they happen. -/
inductive Event where
  /-- The call `ioutil.ReadAll(os.Stdin)`. -/
  | readStdin : Event
  /-- The call `ioutil.ReadFile(path)`. -/
  | readFile (path : GoString) : Event
  /-- The call `http.NewRequest(method, url, body)`. -/
  | newRequest (method url : GoString) (body : Json) : Event
  /-- The call `client.Do(req)`, the network call. -/
  | send (req : Request) : Event
  /-- The call `ioutil.ReadAll(resp.Body)`. -/
  | readBody : Event
  /-- A call of `fmt.Printf`, with the text it writes to standard output. -/
  | print (text : GoString) : Event
  /-- The deferred `resp.Body.Close()`, which runs when `main` returns. -/
  | closeBody : Event

/-- The way the process ends. -/
inductive Exit where
  /-- The function `main` returns: exit status 0. -/
  | returned : Exit
  /-- A call of `log.Fatalf`: the message goes to standard error and the
  process exits with status 1. -/
  | fatal (message : GoString) : Exit

/-- The exit status of the process. -/
def Exit.status : Exit → Nat
  | Exit.returned => 0
  | Exit.fatal _ => 1

/-- A run: its effects and its end. -/
structure Run where
  events : List Event
  exit : Exit

/-- The texts a run writes to standard output, in order. -/
def Run.stdout (r : Run) : List GoString :=
  r.events.filterMap (fun e => match e with
    | Event.print t => some t
    | _ => none)

/-! ## The program (`main.go`, lines 53-146) -/

/-- The function `getToken` (lines 53-62), with the two package variables it
reads as arguments. -/
def getToken (gistToken githubToken : GoString) (token : GoString) : GoString :=
  if token ≠ [] then token
  else if gistToken ≠ [] then gistToken
  else if githubToken ≠ [] then githubToken
  else []

/-- The loop of lines 95-103 over the arguments that are left, starting from
the map `files`: each file is read and stored under the base name of its path;
the first failure ends the process. -/
def readFiles (w : World) : List GoString → GoMap File → List Event × Except GoString (GoMap File)
  | [], files => ([], Except.ok files)
  | file :: rest, files =>
    match w.readFile file with
    | Except.error err =>
      ([Event.readFile file], Except.error (str "error reading " ++ file ++ str ": " ++ err))
    | Except.ok input =>
      let r := readFiles w rest (GoMap.set files (path.Base file) ⟨input⟩)
      (Event.readFile file :: r.1, r.2)

/-- Input collection (lines 81-104): the effects, and either the map
`pd.Files` or the message of the fatal error. -/
def collectFiles (w : World) : List Event × Except GoString (GoMap File) :=
  if w.args.length = 0 then
    match w.stdin with
    | Except.error err => ([Event.readStdin], Except.error (str "error reading input: " ++ err))
    | Except.ok input =>
      let filename := if w.flags.filename = [] then str "gist.txt" else w.flags.filename
      ([Event.readStdin], Except.ok (GoMap.set [] filename ⟨input⟩))
  else readFiles w w.args []

/-- The choice of `method` and `url` (lines 111-115). -/
def target (patch : GoString) : GoString × GoString :=
  if patch ≠ [] then (str "PATCH", str "https://api.github.com/gists/" ++ patch)
  else (str "POST", str "https://api.github.com/gists")

/-- The request after lines 117-123: the one `http.NewRequest` returns, with an
empty header, and the three headers added to it. -/
def buildRequest (method url : GoString) (bts : Json) (token : GoString) : Request :=
  let h0 : Header := []
  let h1 := Header.Add h0 (str "Authorization") (str "token " ++ token)
  let h2 := Header.Add h1 (str "Accept") (str "application/json")
  let h3 := Header.Add h2 (str "Content-Type") (str "application/json")
  { Method := method, URL := url, Header := h3, Body := bts }

/-- The report of lines 138-145: the texts printed for a status code, a body
and the record parsed from it. -/
def report (statusCode : Int) (body : GoString) (respdata : Response) : List GoString :=
  if statusCode ≠ 200 ∧ statusCode ≠ 201 then
    [ str "Gist might have not been created, response status code: " ++
        formatInt statusCode ++ str "\n",
      body ++ str "\n" ]
  else
    [ str "  ID:    " ++ respdata.ID ++ str "\n",
      str "  HTML:  " ++ respdata.HTMLURL ++ str "\n",
      str "  Date:  " ++ respdata.CreatedAt.text ++ str "\n" ]

/-- The run from line 106 on, for the token and the payload built so far:
marshalling, the request, the network call and the report. -/
def submit (w : World) (token : GoString) (pd : PostData) : Run :=
  match json.Marshal pd with
  | Except.error err => ⟨[], Exit.fatal (str "could not encode to json: " ++ err)⟩
  | Except.ok bts =>
    let mu := target w.flags.patch
    match w.newRequestError mu.1 mu.2 with
    | some err =>
      ⟨[Event.newRequest mu.1 mu.2 bts], Exit.fatal (str "could not create request: " ++ err)⟩
    | none =>
      let req := buildRequest mu.1 mu.2 bts token
      match w.roundTrip req with
      | Except.error err =>
        ⟨[Event.newRequest mu.1 mu.2 bts, Event.send req],
          Exit.fatal (str "could not make request: " ++ err)⟩
      | Except.ok resp =>
        match resp.Body with
        | Except.error err =>
          ⟨[Event.newRequest mu.1 mu.2 bts, Event.send req, Event.readBody],
            Exit.fatal (str "could not read response: " ++ err)⟩
        | Except.ok body =>
          let respdata := w.unmarshal body
          ⟨[Event.newRequest mu.1 mu.2 bts, Event.send req, Event.readBody] ++
              (report resp.StatusCode body respdata).map Event.print ++ [Event.closeBody],
            Exit.returned⟩

/-- The function `main` (lines 64-146), after `flag.Parse()`. -/
def main (w : World) : Run :=
  let token := getToken w.gistToken w.githubToken w.flags.token
  if token = [] then ⟨[], Exit.fatal (str "no token")⟩
  else
    match collectFiles w with
    | (evs, Except.error msg) => ⟨evs, Exit.fatal msg⟩
    | (evs, Except.ok files) =>
      let r := submit w token
        { Description := w.flags.description, Public := w.flags.public, Files := files }
      ⟨evs ++ r.events, r.exit⟩

/-! ## Worlds used to evaluate the program -/

/-- The error text of a path that does not exist. -/
def noSuchFile : GoString := str "no such file or directory"

/-- A file system with two files of the same base name. -/
def twoFiles (p : GoString) : Except GoString GoString :=
  if p = str "/a/x.txt" then Except.ok (str "first")
  else if p = str "/b/x.txt" then Except.ok (str "second")
  else Except.error noSuchFile

/-- A server that answers every request with the given status code and body. -/
def answer (status : Int) (body : Except GoString GoString) (_ : Request) :
    Except GoString HttpResponse :=
  Except.ok ⟨status, body⟩

/-- A parser of responses that finds no field. -/
def noFields (_ : GoString) : Response := ⟨[], [], [], [], ⟨[]⟩⟩

/-- A run with the token `secret` in `GIST_TOKEN`, the text `hello` on standard
input, no flags and no arguments, answered with status 404. -/
def worldStdin : World :=
  { flags := ⟨[], [], [], [], false⟩,
    args := [],
    gistToken := str "secret",
    githubToken := [],
    stdin := Except.ok (str "hello"),
    readFile := twoFiles,
    newRequestError := fun _ _ => none,
    roundTrip := answer 404 (Except.ok (str "Not Found")),
    unmarshal := noFields }

/-- The run `gist -token secret /a/x.txt /b/x.txt`, answered with status 201. -/
def worldTwoFiles : World :=
  { worldStdin with
    flags := ⟨str "secret", [], [], [], false⟩,
    args := [str "/a/x.txt", str "/b/x.txt"],
    roundTrip := answer 201 (Except.ok (str "{}")) }

/-- The run `gist -token secret /a/x.txt /missing /b/x.txt`. -/
def worldMissing : World :=
  { worldTwoFiles with args := [str "/a/x.txt", str "/missing", str "/b/x.txt"] }

/-- A run in which the request is answered with status 201 and the connection
breaks while the body is read. -/
def worldBrokenBody : World :=
  { worldStdin with roundTrip := answer 201 (Except.error (str "unexpected EOF")) }

/-- A run whose standard input is the single byte `0xFF`, as a binary file or a
Latin-1 text may contain it. -/
def worldBinary : World :=
  { worldStdin with stdin := Except.ok [0xFF] }

/-- The world `w` with other values of `-token`, `GIST_TOKEN` and
`GITHUB_TOKEN`, and nothing else changed. -/
def World.withTokens (w : World) (t g h : GoString) : World :=
  { w with flags := { w.flags with token := t }, gistToken := g, githubToken := h }

/-! ## Lemmas on maps -/

theorem GoMap.get?_set_self {β : Type} (m : GoMap β) (k : GoString) (v : β) :
    GoMap.get? (GoMap.set m k v) k = some v := by
  induction m with
  | nil => simp [GoMap.set, GoMap.get?]
  | cons kv rest ih =>
    obtain ⟨k1, v1⟩ := kv
    by_cases h : k1 = k
    · simp [GoMap.set, GoMap.get?, h]
    · simp [GoMap.set, GoMap.get?, h, ih]

theorem GoMap.get?_set_ne {β : Type} (m : GoMap β) (k k2 : GoString) (v : β) (hne : k ≠ k2) :
    GoMap.get? (GoMap.set m k v) k2 = GoMap.get? m k2 := by
  induction m with
  | nil => simp [GoMap.set, GoMap.get?, hne]
  | cons kv rest ih =>
    obtain ⟨k1, v1⟩ := kv
    by_cases h : k1 = k
    · subst h
      simp [GoMap.set, GoMap.get?, hne]
    · by_cases h2 : k1 = k2
      · subst h2
        simp [GoMap.set, GoMap.get?, h]
      · simp [GoMap.set, GoMap.get?, h, h2, ih]

theorem GoMap.mem_keys_set {β : Type} (m : GoMap β) (k k2 : GoString) (v : β) :
    k2 ∈ GoMap.keys (GoMap.set m k v) ↔ k2 = k ∨ k2 ∈ GoMap.keys m := by
  induction m with
  | nil => simp [GoMap.set, GoMap.keys]
  | cons kv rest ih =>
    obtain ⟨k1, v1⟩ := kv
    by_cases h : k1 = k
    · subst h
      simp [GoMap.set, GoMap.keys]
    · simp only [GoMap.keys] at ih
      simp [GoMap.set, GoMap.keys, h, ih]
      tauto

theorem GoMap.nodup_keys_set {β : Type} (m : GoMap β) (k : GoString) (v : β)
    (hm : (GoMap.keys m).Nodup) : (GoMap.keys (GoMap.set m k v)).Nodup := by
  induction m with
  | nil => simp [GoMap.set, GoMap.keys]
  | cons kv rest ih =>
    obtain ⟨k1, v1⟩ := kv
    have hm2 : k1 ∉ GoMap.keys rest ∧ (GoMap.keys rest).Nodup := by
      simpa [GoMap.keys] using hm
    by_cases h : k1 = k
    · subst h
      simpa [GoMap.set, GoMap.keys] using hm
    · have hk : k1 ∉ GoMap.keys (GoMap.set rest k v) := by
        rw [GoMap.mem_keys_set]
        intro hc
        rcases hc with hc | hc
        · exact h hc
        · exact hm2.1 hc
      have := ih hm2.2
      simp only [GoMap.keys] at this hk
      simp [GoMap.set, GoMap.keys, h]
      exact ⟨by simpa using hk, this⟩

/-! ## Token resolution -/

theorem getToken_eq_nil_iff (g h t : GoString) :
    getToken g h t = [] ↔ t = [] ∧ g = [] ∧ h = [] := by
  unfold getToken
  by_cases ht : t = [] <;> by_cases hg : g = [] <;> by_cases hh : h = [] <;>
    simp [ht, hg, hh]

/-- C1: `getToken` returns the first non-empty value among the explicit token,
`GIST_TOKEN` and `GITHUB_TOKEN`, in this order, and the empty string when all
three are empty; so the result is empty exactly when all three are. -/
theorem getToken_first_nonempty (g h t : GoString) :
    getToken g h t = ([t, g, h].find? (fun s => decide (s ≠ []))).getD [] ∧
    (getToken g h t = [] ↔ t = [] ∧ g = [] ∧ h = []) := by
  unfold getToken
  by_cases ht : t = [] <;> by_cases hg : g = [] <;> by_cases hh : h = [] <;>
    simp [ht, hg, hh, List.find?]

/-! ## The stages of `main` -/

theorem main_of_no_token (w : World)
    (h : getToken w.gistToken w.githubToken w.flags.token = []) :
    main w = ⟨[], Exit.fatal (str "no token")⟩ := by
  simp [main, h]

theorem main_of_collect_error (w : World) (evs : List Event) (msg : GoString)
    (h : getToken w.gistToken w.githubToken w.flags.token ≠ [])
    (hc : collectFiles w = (evs, Except.error msg)) :
    main w = ⟨evs, Exit.fatal msg⟩ := by
  simp [main, h, hc]

theorem main_of_collect_ok (w : World) (evs : List Event) (files : GoMap File)
    (h : getToken w.gistToken w.githubToken w.flags.token ≠ [])
    (hc : collectFiles w = (evs, Except.ok files)) :
    main w =
      ⟨evs ++ (submit w (getToken w.gistToken w.githubToken w.flags.token)
          ⟨w.flags.description, w.flags.public, files⟩).events,
        (submit w (getToken w.gistToken w.githubToken w.flags.token)
          ⟨w.flags.description, w.flags.public, files⟩).exit⟩ := by
  simp [main, h, hc]

theorem readFiles_error_head (w : World) (l : List GoString) (files : GoMap File)
    (msg : GoString) (h : (readFiles w l files).2 = Except.error msg) :
    msg.head? = some 101 := by
  induction l generalizing files with
  | nil => simp [readFiles] at h
  | cons p rest ih =>
    unfold readFiles at h
    split at h
    · simp at h
      subst h
      rfl
    · exact ih _ h

theorem collectFiles_error_head (w : World) (msg : GoString)
    (h : (collectFiles w).2 = Except.error msg) : msg.head? = some 101 := by
  unfold collectFiles at h
  split at h
  · split at h
    · simp at h
      subst h
      rfl
    · simp at h
  · exact readFiles_error_head w _ _ msg h

/-- The body that `submit` marshals for a payload. -/
theorem marshal_ok (pd : PostData) : ∃ bts, json.Marshal pd = Except.ok bts :=
  ⟨_, rfl⟩

/-- The four ways in which the run from line 106 on can go. -/
theorem submit_cases (w : World) (token : GoString) (pd : PostData) :
    ∃ bts, json.Marshal pd = Except.ok bts ∧
      ((∃ err, w.newRequestError (target w.flags.patch).1 (target w.flags.patch).2 = some err ∧
          submit w token pd =
            ⟨[Event.newRequest (target w.flags.patch).1 (target w.flags.patch).2 bts],
              Exit.fatal (str "could not create request: " ++ err)⟩) ∨
        (w.newRequestError (target w.flags.patch).1 (target w.flags.patch).2 = none ∧
          ∃ err, w.roundTrip
              (buildRequest (target w.flags.patch).1 (target w.flags.patch).2 bts token) =
                Except.error err ∧
            submit w token pd =
              ⟨[Event.newRequest (target w.flags.patch).1 (target w.flags.patch).2 bts,
                  Event.send
                    (buildRequest (target w.flags.patch).1 (target w.flags.patch).2 bts token)],
                Exit.fatal (str "could not make request: " ++ err)⟩) ∨
        (w.newRequestError (target w.flags.patch).1 (target w.flags.patch).2 = none ∧
          ∃ status err, w.roundTrip
              (buildRequest (target w.flags.patch).1 (target w.flags.patch).2 bts token) =
                Except.ok ⟨status, Except.error err⟩ ∧
            submit w token pd =
              ⟨[Event.newRequest (target w.flags.patch).1 (target w.flags.patch).2 bts,
                  Event.send
                    (buildRequest (target w.flags.patch).1 (target w.flags.patch).2 bts token),
                  Event.readBody],
                Exit.fatal (str "could not read response: " ++ err)⟩) ∨
        (w.newRequestError (target w.flags.patch).1 (target w.flags.patch).2 = none ∧
          ∃ status body, w.roundTrip
              (buildRequest (target w.flags.patch).1 (target w.flags.patch).2 bts token) =
                Except.ok ⟨status, Except.ok body⟩ ∧
            submit w token pd =
              ⟨[Event.newRequest (target w.flags.patch).1 (target w.flags.patch).2 bts,
                  Event.send
                    (buildRequest (target w.flags.patch).1 (target w.flags.patch).2 bts token),
                  Event.readBody] ++
                  (report status body (w.unmarshal body)).map Event.print ++ [Event.closeBody],
                Exit.returned⟩)) := by
  obtain ⟨bts, hb⟩ := marshal_ok pd
  refine ⟨bts, hb, ?_⟩
  unfold submit
  rw [hb]
  simp only []
  rcases hn : w.newRequestError (target w.flags.patch).1 (target w.flags.patch).2 with _ | err
  · right
    simp only [true_and]
    rcases hr : w.roundTrip
        (buildRequest (target w.flags.patch).1 (target w.flags.patch).2 bts token) with err | resp
    · left
      exact ⟨err, rfl, rfl⟩
    · right
      obtain ⟨status, rbody⟩ := resp
      cases rbody with
      | error err =>
        left
        exact ⟨status, err, rfl, rfl⟩
      | ok body =>
        right
        exact ⟨status, body, rfl, rfl⟩
  · left
    exact ⟨err, rfl, rfl⟩

theorem submit_fatal_head (w : World) (token : GoString) (pd : PostData) (msg : GoString)
    (h : (submit w token pd).exit = Exit.fatal msg) : msg.head? = some 99 := by
  obtain ⟨bts, -, hc⟩ := submit_cases w token pd
  rcases hc with ⟨err, -, hs⟩ | ⟨-, err, -, hs⟩ | ⟨-, status, err, -, hs⟩ | ⟨-, status, body, -, hs⟩ <;>
    rw [hs] at h <;> simp only [Exit.fatal.injEq] at h
  · subst h
    rfl
  · subst h
    rfl
  · subst h
    rfl
  · exact absurd h (by simp)

/-- C2: the process ends with the fatal error "no token", having read no input
and built no request (the run has no effect at all), when the flag `-token`,
`GIST_TOKEN` and `GITHUB_TOKEN` are all empty, and the fatal error "no token"
occurs in no other case; its exit status is 1. -/
theorem main_no_token_iff (w : World) :
    ((w.flags.token = [] ∧ w.gistToken = [] ∧ w.githubToken = []) ↔
      main w = ⟨[], Exit.fatal (str "no token")⟩) ∧
    ((w.flags.token = [] ∧ w.gistToken = [] ∧ w.githubToken = []) ↔
      (main w).exit = Exit.fatal (str "no token")) ∧
    (Exit.fatal (str "no token")).status = 1 := by
  have key : (main w).exit = Exit.fatal (str "no token") →
      w.flags.token = [] ∧ w.gistToken = [] ∧ w.githubToken = [] := by
    intro hexit
    by_cases htok : getToken w.gistToken w.githubToken w.flags.token = []
    · exact (getToken_eq_nil_iff _ _ _).1 htok
    · exfalso
      rcases hcf : collectFiles w with ⟨evs, r⟩
      cases r with
      | error msg =>
        rw [main_of_collect_error w evs msg htok hcf] at hexit
        have h1 := collectFiles_error_head w msg (by rw [hcf])
        simp only [Exit.fatal.injEq] at hexit
        rw [hexit] at h1
        revert h1
        decide
      | ok files =>
        rw [main_of_collect_ok w evs files htok hcf] at hexit
        have h1 := submit_fatal_head w _ _ _ hexit
        revert h1
        decide
  have fwd : (w.flags.token = [] ∧ w.gistToken = [] ∧ w.githubToken = []) →
      main w = ⟨[], Exit.fatal (str "no token")⟩ := fun h =>
    main_of_no_token w ((getToken_eq_nil_iff _ _ _).2 h)
  refine ⟨⟨fwd, fun h => key (by rw [h])⟩, ⟨fun h => by rw [fwd h], key⟩, rfl⟩

/-! ## Input collection -/

theorem readFiles_events (w : World) (l : List GoString) (files : GoMap File) :
    ∀ e ∈ (readFiles w l files).1, ∃ p, e = Event.readFile p := by
  induction l generalizing files with
  | nil => simp [readFiles]
  | cons q rest ih =>
    intro e he
    unfold readFiles at he
    split at he
    · simp only [List.mem_singleton] at he
      exact ⟨q, he⟩
    · simp only [List.mem_cons] at he
      rcases he with he | he
      · exact ⟨q, he⟩
      · exact ih _ e he

theorem collectFiles_events (w : World) :
    ∀ e ∈ (collectFiles w).1, e = Event.readStdin ∨ ∃ p, e = Event.readFile p := by
  intro e he
  unfold collectFiles at he
  split at he
  · split at he <;> simp only [List.mem_singleton] at he <;> exact Or.inl he
  · exact Or.inr (readFiles_events w _ _ e he)

theorem readFiles_first_unreadable (w : World) (pre post : List GoString) (p err : GoString)
    (files : GoMap File) (hpre : ∀ q ∈ pre, ∃ c, w.readFile q = Except.ok c)
    (hp : w.readFile p = Except.error err) :
    readFiles w (pre ++ p :: post) files =
      ((pre ++ [p]).map Event.readFile,
        Except.error (str "error reading " ++ p ++ str ": " ++ err)) := by
  induction pre generalizing files with
  | nil => simp [readFiles, hp]
  | cons q rest ih =>
    obtain ⟨c, hc⟩ := hpre q (by simp)
    have hrest : ∀ r ∈ rest, ∃ c, w.readFile r = Except.ok c :=
      fun r hr => hpre r (by simp [hr])
    simp [readFiles, hc, ih _ hrest]

theorem readFiles_readable (w : World) (l : List GoString) (files : GoMap File)
    (hall : ∀ q ∈ l, ∃ c, w.readFile q = Except.ok c) :
    ∃ m, readFiles w l files = (l.map Event.readFile, Except.ok m) ∧
      ((GoMap.keys files).Nodup → (GoMap.keys m).Nodup) ∧
      (∀ k, k ∈ GoMap.keys m ↔ k ∈ GoMap.keys files ∨ ∃ q ∈ l, path.Base q = k) ∧
      (∀ k, (∀ q ∈ l, path.Base q ≠ k) → GoMap.get? m k = GoMap.get? files k) ∧
      (∀ pre q post c, l = pre ++ q :: post → (∀ r ∈ post, path.Base r ≠ path.Base q) →
        w.readFile q = Except.ok c → GoMap.get? m (path.Base q) = some ⟨c⟩) := by
  induction l generalizing files with
  | nil =>
    refine ⟨files, by simp [readFiles], fun h => h, by simp, fun _ _ => rfl, ?_⟩
    intro pre q post c h
    simp at h
  | cons p rest ih =>
    obtain ⟨c0, hc0⟩ := hall p (by simp)
    have hrest : ∀ r ∈ rest, ∃ c, w.readFile r = Except.ok c :=
      fun r hr => hall r (by simp [hr])
    obtain ⟨m, hm, hnd, hkeys, hget, hlast⟩ :=
      ih (GoMap.set files (path.Base p) ⟨c0⟩) hrest
    refine ⟨m, by simp [readFiles, hc0, hm], ?_, ?_, ?_, ?_⟩
    · intro h
      exact hnd (GoMap.nodup_keys_set _ _ _ h)
    · intro k
      rw [hkeys, GoMap.mem_keys_set]
      constructor
      · rintro ((h | h) | ⟨q, hq, h⟩)
        · exact Or.inr ⟨p, by simp, h.symm⟩
        · exact Or.inl h
        · exact Or.inr ⟨q, by simp [hq], h⟩
      · rintro (h | ⟨q, hq, h⟩)
        · exact Or.inl (Or.inr h)
        · simp only [List.mem_cons] at hq
          rcases hq with hq | hq
          · subst hq
            exact Or.inl (Or.inl h.symm)
          · exact Or.inr ⟨q, hq, h⟩
    · intro k hk
      rw [hget k (fun q hq => hk q (by simp [hq]))]
      exact GoMap.get?_set_ne _ _ _ _ (hk p (by simp))
    · intro pre q post c hl hpost hq
      cases pre with
      | nil =>
        simp only [List.nil_append, List.cons.injEq] at hl
        obtain ⟨h1, h2⟩ := hl
        subst h1 h2
        rw [hget _ hpost, GoMap.get?_set_self]
        rw [hc0] at hq
        simp only [Except.ok.injEq] at hq
        rw [hq]
      | cons p2 pre2 =>
        simp only [List.cons_append, List.cons.injEq] at hl
        exact hlast pre2 q post c hl.2 hpost hq

/-! ## The request -/

/-- A request that `main` sends was built from the resolved token, the chosen
target and the marshalled payload, and the run is the one of `submit` after
input collection. -/
theorem main_send_inv (w : World) (req : Request) (h : Event.send req ∈ (main w).events) :
    getToken w.gistToken w.githubToken w.flags.token ≠ [] ∧
    ∃ evs files bts, collectFiles w = (evs, Except.ok files) ∧
      json.Marshal ⟨w.flags.description, w.flags.public, files⟩ = Except.ok bts ∧
      w.newRequestError (target w.flags.patch).1 (target w.flags.patch).2 = none ∧
      req = buildRequest (target w.flags.patch).1 (target w.flags.patch).2 bts
        (getToken w.gistToken w.githubToken w.flags.token) ∧
      main w =
        ⟨evs ++ (submit w (getToken w.gistToken w.githubToken w.flags.token)
            ⟨w.flags.description, w.flags.public, files⟩).events,
          (submit w (getToken w.gistToken w.githubToken w.flags.token)
            ⟨w.flags.description, w.flags.public, files⟩).exit⟩ := by
  by_cases htok : getToken w.gistToken w.githubToken w.flags.token = []
  · rw [main_of_no_token w htok] at h
    simp at h
  · refine ⟨htok, ?_⟩
    rcases hcf : collectFiles w with ⟨evs, r⟩
    have hevs : Event.send req ∉ evs := by
      intro hmem
      have := collectFiles_events w (Event.send req) (by rw [hcf]; exact hmem)
      rcases this with h1 | ⟨p, h1⟩ <;> simp at h1
    cases r with
    | error msg =>
      rw [main_of_collect_error w evs msg htok hcf] at h
      exact absurd h hevs
    | ok files =>
      have hmain := main_of_collect_ok w evs files htok hcf
      rw [hmain] at h
      simp only [List.mem_append] at h
      rcases h with h | h
      · exact absurd h hevs
      · obtain ⟨bts, hb, hc⟩ := submit_cases w
          (getToken w.gistToken w.githubToken w.flags.token)
          ⟨w.flags.description, w.flags.public, files⟩
        refine ⟨evs, files, bts, rfl, hb, ?_⟩
        rcases hc with ⟨err, -, hs⟩ | ⟨hn, err, -, hs⟩ | ⟨hn, status, err, -, hs⟩ |
          ⟨hn, status, body, -, hs⟩
        · rw [hs] at h
          simp at h
        · rw [hs] at h
          simp at h
          exact ⟨hn, h, hmain⟩
        · rw [hs] at h
          simp at h
          exact ⟨hn, h, hmain⟩
        · rw [hs] at h
          simp at h
          exact ⟨hn, h, hmain⟩

/-- A request that `main` constructs has the chosen target and the marshalled
payload as its body. -/
theorem main_newRequest_inv (w : World) (m u : GoString) (b : Json)
    (h : Event.newRequest m u b ∈ (main w).events) :
    m = (target w.flags.patch).1 ∧ u = (target w.flags.patch).2 ∧
    ∃ evs files, collectFiles w = (evs, Except.ok files) ∧
      json.Marshal ⟨w.flags.description, w.flags.public, files⟩ = Except.ok b := by
  by_cases htok : getToken w.gistToken w.githubToken w.flags.token = []
  · rw [main_of_no_token w htok] at h
    simp at h
  · rcases hcf : collectFiles w with ⟨evs, r⟩
    have hevs : Event.newRequest m u b ∉ evs := by
      intro hmem
      have := collectFiles_events w (Event.newRequest m u b) (by rw [hcf]; exact hmem)
      rcases this with h1 | ⟨p, h1⟩ <;> simp at h1
    cases r with
    | error msg =>
      rw [main_of_collect_error w evs msg htok hcf] at h
      exact absurd h hevs
    | ok files =>
      rw [main_of_collect_ok w evs files htok hcf] at h
      simp only [List.mem_append] at h
      rcases h with h | h
      · exact absurd h hevs
      · obtain ⟨bts, hb, hc⟩ := submit_cases w
          (getToken w.gistToken w.githubToken w.flags.token)
          ⟨w.flags.description, w.flags.public, files⟩
        have key : m = (target w.flags.patch).1 ∧ u = (target w.flags.patch).2 ∧ b = bts := by
          rcases hc with ⟨err, -, hs⟩ | ⟨hn, err, -, hs⟩ | ⟨hn, status, err, -, hs⟩ |
            ⟨hn, status, body, -, hs⟩ <;> rw [hs] at h <;> simpa using h
        obtain ⟨h1, h2, h3⟩ := key
        subst h3
        exact ⟨h1, h2, evs, files, rfl, hb⟩

/-! ## The files of the payload -/

/-- C3: in stdin mode (no positional argument), with the content `c` on
standard input, input collection reads standard input and nothing else and
yields a map with exactly one entry: its content is `c` and its key is
the value of `-filename`, or `gist.txt` when that value is empty; the payload
that `main` marshals for the request has this map as its files. -/
theorem collectFiles_stdin (w : World) (c : GoString) (hargs : w.args = [])
    (hin : w.stdin = Except.ok c) :
    collectFiles w =
      ([Event.readStdin],
        Except.ok [(if w.flags.filename = [] then str "gist.txt" else w.flags.filename, ⟨c⟩)]) ∧
    ∀ m u b, Event.newRequest m u b ∈ (main w).events →
      json.Marshal ⟨w.flags.description, w.flags.public,
        [(if w.flags.filename = [] then str "gist.txt" else w.flags.filename, ⟨c⟩)]⟩ =
          Except.ok b := by
  have hcf : collectFiles w =
      ([Event.readStdin],
        Except.ok [(if w.flags.filename = [] then str "gist.txt" else w.flags.filename, ⟨c⟩)]) := by
    simp [collectFiles, hargs, hin, GoMap.set]
  refine ⟨hcf, ?_⟩
  intro m u b h
  obtain ⟨-, -, evs, files, h1, h2⟩ := main_newRequest_inv w m u b h
  rw [hcf] at h1
  simp only [Prod.mk.injEq, Except.ok.injEq] at h1
  rw [h1.2]
  exact h2

/-- Witness of C3: the text `hello` on standard input and no `-filename` give
exactly the entry `gist.txt` with the content `hello`. -/
theorem collectFiles_stdin_witness :
    collectFiles worldStdin =
      ([Event.readStdin], Except.ok [(str "gist.txt", ⟨str "hello"⟩)]) :=
  (collectFiles_stdin worldStdin (str "hello") rfl rfl).1

/-- C4: in file mode, when every path argument can be read, input collection
reads the arguments in order and yields a map whose keys are exactly the base
names (`path.Base`) of the arguments, one entry per base name, each holding
the content of the last argument that has this base name; the payload that
`main` marshals for the request has this map as its files. -/
theorem collectFiles_files (w : World) (hne : w.args ≠ [])
    (hall : ∀ p ∈ w.args, ∃ c, w.readFile p = Except.ok c) :
    ∃ m, collectFiles w = (w.args.map Event.readFile, Except.ok m) ∧
      (GoMap.keys m).Nodup ∧
      (∀ k, k ∈ GoMap.keys m ↔ ∃ p ∈ w.args, path.Base p = k) ∧
      (∀ pre p post c, w.args = pre ++ p :: post →
        (∀ q ∈ post, path.Base q ≠ path.Base p) →
        w.readFile p = Except.ok c → GoMap.get? m (path.Base p) = some ⟨c⟩) ∧
      (∀ mt u b, Event.newRequest mt u b ∈ (main w).events →
        json.Marshal ⟨w.flags.description, w.flags.public, m⟩ = Except.ok b) := by
  obtain ⟨m, hm, hnd, hkeys, -, hlast⟩ := readFiles_readable w w.args [] hall
  have hlen : ¬ w.args.length = 0 := by
    simpa [List.length_eq_zero] using hne
  have hcf : collectFiles w = (w.args.map Event.readFile, Except.ok m) := by
    simp [collectFiles, hlen, hm]
  refine ⟨m, hcf, hnd (by simp [GoMap.keys]), ?_, hlast, ?_⟩
  · intro k
    rw [hkeys]
    simp [GoMap.keys]
  · intro mt u b h
    obtain ⟨-, -, evs, files, h1, h2⟩ := main_newRequest_inv w mt u b h
    rw [hcf] at h1
    simp only [Prod.mk.injEq, Except.ok.injEq] at h1
    rw [h1.2]
    exact h2

/-- Witness of C4: the arguments `/a/x.txt` and `/b/x.txt` give exactly one
entry, keyed `x.txt`, with the content of `/b/x.txt`. -/
theorem collectFiles_files_witness :
    collectFiles worldTwoFiles =
      ([Event.readFile (str "/a/x.txt"), Event.readFile (str "/b/x.txt")],
        Except.ok [(str "x.txt", ⟨str "second"⟩)]) ∧
    ∃ m, collectFiles worldTwoFiles = (worldTwoFiles.args.map Event.readFile, Except.ok m) ∧
      (GoMap.keys m).Nodup ∧
      (∀ k, k ∈ GoMap.keys m ↔ ∃ p ∈ worldTwoFiles.args, path.Base p = k) ∧
      (∀ pre p post c, worldTwoFiles.args = pre ++ p :: post →
        (∀ q ∈ post, path.Base q ≠ path.Base p) →
        worldTwoFiles.readFile p = Except.ok c → GoMap.get? m (path.Base p) = some ⟨c⟩) ∧
      (∀ mt u b, Event.newRequest mt u b ∈ (main worldTwoFiles).events →
        json.Marshal ⟨worldTwoFiles.flags.description, worldTwoFiles.flags.public, m⟩ =
          Except.ok b) :=
  ⟨rfl, collectFiles_files worldTwoFiles (by simp [worldTwoFiles]) (by
    intro p hp
    simp only [worldTwoFiles, List.mem_cons, List.mem_singleton, List.not_mem_nil,
      or_false] at hp
    rcases hp with hp | hp <;> subst hp
    · exact ⟨str "first", rfl⟩
    · exact ⟨str "second", rfl⟩)⟩

/-! ## Method and URL -/

/-- C5: the method and the URL depend on the value of `-patch` alone: `PATCH`
and `https://api.github.com/gists/` followed by that value when it is not
empty, `POST` and `https://api.github.com/gists` when it is; every request the
program constructs or sends has this method and this URL. -/
theorem target_by_patch (w : World) :
    target w.flags.patch =
      (if w.flags.patch = [] then (str "POST", str "https://api.github.com/gists")
        else (str "PATCH", str "https://api.github.com/gists/" ++ w.flags.patch)) ∧
    (∀ m u b, Event.newRequest m u b ∈ (main w).events →
      m = (target w.flags.patch).1 ∧ u = (target w.flags.patch).2) ∧
    (∀ req, Event.send req ∈ (main w).events →
      req.Method = (target w.flags.patch).1 ∧ req.URL = (target w.flags.patch).2) := by
  refine ⟨?_, ?_, ?_⟩
  · unfold target
    by_cases h : w.flags.patch = [] <;> simp [h]
  · intro m u b h
    obtain ⟨h1, h2, -⟩ := main_newRequest_inv w m u b h
    exact ⟨h1, h2⟩
  · intro req h
    obtain ⟨-, evs, files, bts, -, -, -, hreq, -⟩ := main_send_inv w req h
    subst hreq
    exact ⟨rfl, rfl⟩

/-! ## Unreadable files -/

/-- C7: in file mode, when some path argument cannot be read, input collection
reads the paths up to the first unreadable one and ends with the fatal error
that names this path; no request is constructed or sent in such a run, and
with a token resolved the whole run of `main` consists of these reads and this
fatal error (exit status 1). -/
theorem main_unreadable (w : World) (pre post : List GoString) (p err : GoString)
    (hargs : w.args = pre ++ p :: post)
    (hpre : ∀ q ∈ pre, ∃ c, w.readFile q = Except.ok c)
    (hp : w.readFile p = Except.error err) :
    collectFiles w =
      ((pre ++ [p]).map Event.readFile,
        Except.error (str "error reading " ++ p ++ str ": " ++ err)) ∧
    (∀ m u b, Event.newRequest m u b ∉ (main w).events) ∧
    (∀ req, Event.send req ∉ (main w).events) ∧
    (getToken w.gistToken w.githubToken w.flags.token ≠ [] →
      main w =
        ⟨(pre ++ [p]).map Event.readFile,
          Exit.fatal (str "error reading " ++ p ++ str ": " ++ err)⟩ ∧
      (main w).exit.status = 1) := by
  have hcf : collectFiles w =
      ((pre ++ [p]).map Event.readFile,
        Except.error (str "error reading " ++ p ++ str ": " ++ err)) := by
    have hlen : ¬ w.args.length = 0 := by simp [hargs]
    simp only [collectFiles, hlen, if_false]
    rw [hargs]
    exact readFiles_first_unreadable w pre post p err [] hpre hp
  refine ⟨hcf, ?_, ?_, ?_⟩
  · intro m u b h
    obtain ⟨-, -, evs, files, h1, -⟩ := main_newRequest_inv w m u b h
    rw [hcf] at h1
    simp at h1
  · intro req h
    obtain ⟨-, evs, files, bts, h1, -⟩ := main_send_inv w req h
    rw [hcf] at h1
    simp at h1
  · intro htok
    have hmain := main_of_collect_error w _ _ htok hcf
    exact ⟨hmain, by rw [hmain]; rfl⟩

/-- Witness of C7: with `/a/x.txt` readable and `/missing` not, the run reads
both, stops with the error that names `/missing` and never reads `/b/x.txt`. -/
theorem main_unreadable_witness :
    main worldMissing =
      ⟨[Event.readFile (str "/a/x.txt"), Event.readFile (str "/missing")],
        Exit.fatal (str "error reading /missing: no such file or directory")⟩ :=
  ((main_unreadable worldMissing [str "/a/x.txt"] [str "/b/x.txt"] (str "/missing") noSuchFile
    rfl
    (by
      intro q hq
      simp only [List.mem_singleton] at hq
      subst hq
      exact ⟨str "first", rfl⟩)
    rfl).2.2.2 (by decide)).1

/-! ## The report -/

theorem filterMap_print_reads (evs : List Event)
    (h : ∀ e ∈ evs, e = Event.readStdin ∨ ∃ p, e = Event.readFile p) :
    Run.stdout ⟨evs, Exit.returned⟩ = [] := by
  induction evs with
  | nil => rfl
  | cons e rest ih =>
    have hrest := ih (fun x hx => h x (by simp [hx]))
    simp only [Run.stdout] at hrest ⊢
    rcases h e (by simp) with he | ⟨p, he⟩ <;> subst he <;> simpa using hrest

theorem filterMap_print_map (l : List GoString) :
    (l.map Event.print).filterMap (fun e => match e with
      | Event.print t => some t
      | _ => none) = l := by
  induction l with
  | nil => rfl
  | cons a rest ih => simp [ih]

/-- C6: when the request was answered with the status code `s` and the body
`b` was read, the process returns with exit status 0 and its standard output
is, for `s` equal to 200 or 201, exactly the three labelled lines with the
identifier, the HTML URL and the creation time of the parsed record, and for
every other `s` exactly the line with the status code followed by the body `b`
as it is; the parser of the record is arbitrary, so this holds whether or not
`b` parses. -/
theorem report_of_response (w : World) (req : Request) (s : Int) (b : GoString)
    (hsend : Event.send req ∈ (main w).events)
    (hresp : w.roundTrip req = Except.ok ⟨s, Except.ok b⟩) :
    (main w).exit = Exit.returned ∧ (main w).exit.status = 0 ∧
    (main w).stdout =
      (if s = 200 ∨ s = 201 then
        [ str "  ID:    " ++ (w.unmarshal b).ID ++ str "\n",
          str "  HTML:  " ++ (w.unmarshal b).HTMLURL ++ str "\n",
          str "  Date:  " ++ (w.unmarshal b).CreatedAt.text ++ str "\n" ]
      else
        [ str "Gist might have not been created, response status code: " ++
            formatInt s ++ str "\n",
          b ++ str "\n" ]) := by
  obtain ⟨-, evs, files, bts, hcf, hb, hnone, hreq, hmain⟩ := main_send_inv w req hsend
  obtain ⟨bts2, hb2, hc⟩ := submit_cases w
    (getToken w.gistToken w.githubToken w.flags.token)
    ⟨w.flags.description, w.flags.public, files⟩
  rw [hb] at hb2
  simp only [Except.ok.injEq] at hb2
  subst hb2
  rw [← hreq, hresp] at hc
  have hevs := filterMap_print_reads evs (by
    intro e he
    exact collectFiles_events w e (by rw [hcf]; exact he))
  simp only [Run.stdout] at hevs
  rcases hc with ⟨err, hn, -⟩ | ⟨-, err, hr, -⟩ | ⟨-, status, err, hr, -⟩ |
    ⟨-, status, body, hr, hs⟩
  · rw [hnone] at hn
    simp at hn
  · simp at hr
  · simp at hr
  · simp only [Except.ok.injEq, HttpResponse.mk.injEq] at hr
    obtain ⟨h1, h2⟩ := hr
    subst h1 h2
    rw [hmain, hs]
    refine ⟨rfl, rfl, ?_⟩
    simp only [Run.stdout, List.filterMap_append, hevs, List.nil_append,
      filterMap_print_map]
    have h3 : ([Event.newRequest (target w.flags.patch).1 (target w.flags.patch).2 bts,
        Event.send req, Event.readBody] : List Event).filterMap (fun e => match e with
          | Event.print t => some t
          | _ => none) = [] := rfl
    have h4 : ([Event.closeBody] : List Event).filterMap (fun e => match e with
          | Event.print t => some t
          | _ => none) = [] := rfl
    rw [h3, h4]
    simp only [List.nil_append, List.append_nil, report]
    by_cases hs200 : s = 200
    · simp [hs200]
    · by_cases hs201 : s = 201
      · simp [hs201]
      · simp [hs200, hs201]

/-- Witness of C6: the answer 404 with the body `Not Found` is reported by the
status line and the body, and the process returns with status 0. -/
theorem report_of_response_witness :
    (main worldStdin).exit = Exit.returned ∧ (main worldStdin).exit.status = 0 ∧
    (main worldStdin).stdout =
      [ str "Gist might have not been created, response status code: 404\n",
        str "Not Found\n" ] :=
  report_of_response worldStdin
    (buildRequest (str "POST") (str "https://api.github.com/gists")
      (Json.object
        [ (str "description", Json.string []),
          (str "public", Json.bool false),
          (str "files", Json.object
            [(str "gist.txt", Json.object [(str "content", Json.string (str "hello"))])]) ])
      (str "secret"))
    404 (str "Not Found")
    (List.Mem.tail _ (List.Mem.tail _ (List.Mem.head _)))
    rfl

/-! ## Fatal errors and the network call -/

/-- C8, as stated, fails: in this run the request is sent, the answer arrives
with status 201, reading its body fails, and the process ends with a fatal
error (exit status 1) after the network call. -/
theorem fatal_after_send :
    main worldBrokenBody =
      ⟨[ Event.readStdin,
          Event.newRequest (str "POST") (str "https://api.github.com/gists")
            (Json.object
              [ (str "description", Json.string []),
                (str "public", Json.bool false),
                (str "files", Json.object
                  [(str "gist.txt", Json.object [(str "content", Json.string (str "hello"))])]) ]),
          Event.send
            (buildRequest (str "POST") (str "https://api.github.com/gists")
              (Json.object
                [ (str "description", Json.string []),
                  (str "public", Json.bool false),
                  (str "files", Json.object
                    [(str "gist.txt",
                      Json.object [(str "content", Json.string (str "hello"))])]) ])
              (str "secret")),
          Event.readBody ],
        Exit.fatal (str "could not read response: unexpected EOF")⟩ ∧
    (main worldBrokenBody).exit.status = 1 :=
  ⟨rfl, rfl⟩

/-- C8, amended: once the request is sent the run ends in one of three ways: the
call itself fails (fatal "could not make request"), reading the body of the
answer fails (fatal "could not read response"), or the body is read and the
process returns with status 0, whatever the status code of the answer. Every
other fatal error happens in a run that sends no request. -/
theorem exit_after_send (w : World) (req : Request)
    (hsend : Event.send req ∈ (main w).events) :
    (∃ err, w.roundTrip req = Except.error err ∧
      (main w).exit = Exit.fatal (str "could not make request: " ++ err)) ∨
    (∃ status err, w.roundTrip req = Except.ok ⟨status, Except.error err⟩ ∧
      (main w).exit = Exit.fatal (str "could not read response: " ++ err)) ∨
    (∃ status body, w.roundTrip req = Except.ok ⟨status, Except.ok body⟩ ∧
      (main w).exit = Exit.returned ∧ (main w).exit.status = 0) := by
  obtain ⟨-, evs, files, bts, hcf, hb, hnone, hreq, hmain⟩ := main_send_inv w req hsend
  obtain ⟨bts2, hb2, hc⟩ := submit_cases w
    (getToken w.gistToken w.githubToken w.flags.token)
    ⟨w.flags.description, w.flags.public, files⟩
  rw [hb] at hb2
  simp only [Except.ok.injEq] at hb2
  subst hb2
  rw [← hreq] at hc
  rcases hc with ⟨err, hn, -⟩ | ⟨-, err, hr, hs⟩ | ⟨-, status, err, hr, hs⟩ |
    ⟨-, status, body, hr, hs⟩
  · rw [hnone] at hn
    simp at hn
  · exact Or.inl ⟨err, hr, by rw [hmain, hs]⟩
  · exact Or.inr (Or.inl ⟨status, err, hr, by rw [hmain, hs]⟩)
  · exact Or.inr (Or.inr ⟨status, body, hr, by rw [hmain, hs], by rw [hmain, hs]; rfl⟩)

/-- Witness of C8, amended: the run whose answer cannot be read ends in the
second way. -/
theorem exit_after_send_witness :
    (∃ err, worldBrokenBody.roundTrip
        (buildRequest (str "POST") (str "https://api.github.com/gists")
          (Json.object
            [ (str "description", Json.string []),
              (str "public", Json.bool false),
              (str "files", Json.object
                [(str "gist.txt", Json.object [(str "content", Json.string (str "hello"))])]) ])
          (str "secret")) = Except.error err ∧
      (main worldBrokenBody).exit = Exit.fatal (str "could not make request: " ++ err)) ∨
    (∃ status err, worldBrokenBody.roundTrip
        (buildRequest (str "POST") (str "https://api.github.com/gists")
          (Json.object
            [ (str "description", Json.string []),
              (str "public", Json.bool false),
              (str "files", Json.object
                [(str "gist.txt", Json.object [(str "content", Json.string (str "hello"))])]) ])
          (str "secret")) = Except.ok ⟨status, Except.error err⟩ ∧
      (main worldBrokenBody).exit = Exit.fatal (str "could not read response: " ++ err)) ∨
    (∃ status body, worldBrokenBody.roundTrip
        (buildRequest (str "POST") (str "https://api.github.com/gists")
          (Json.object
            [ (str "description", Json.string []),
              (str "public", Json.bool false),
              (str "files", Json.object
                [(str "gist.txt", Json.object [(str "content", Json.string (str "hello"))])]) ])
          (str "secret")) = Except.ok ⟨status, Except.ok body⟩ ∧
      (main worldBrokenBody).exit = Exit.returned ∧ (main worldBrokenBody).exit.status = 0) :=
  exit_after_send worldBrokenBody _ (List.Mem.tail _ (List.Mem.tail _ (List.Mem.head _)))

/-! ## The headers and the token -/

theorem readFiles_congr (w w2 : World) (h : w2.readFile = w.readFile) (l : List GoString)
    (files : GoMap File) : readFiles w2 l files = readFiles w l files := by
  induction l generalizing files with
  | nil => rfl
  | cons p rest ih =>
    unfold readFiles
    rw [h]
    cases w.readFile p with
    | error err => rfl
    | ok input => simp only [ih]

theorem collectFiles_token (w : World) (t g h : GoString) :
    collectFiles (w.withTokens t g h) = collectFiles w := by
  unfold collectFiles
  simp only [World.withTokens]
  split
  · rfl
  · exact readFiles_congr w (w.withTokens t g h) rfl _ _

/-- C9: a request that is sent carries exactly three headers, `Authorization`
with the single value `token ` followed by the resolved token (the value of
`getToken`, which is not empty), `Accept` and `Content-Type` with the single
value `application/json`; the token enters nothing else: the method and the
URL are those chosen from `-patch`, the body is the marshalled payload, and
all three are the same for any other values of `-token`, `GIST_TOKEN` and
`GITHUB_TOKEN`. -/
theorem request_headers (w : World) (req : Request)
    (hsend : Event.send req ∈ (main w).events) :
    req.Header =
      [ (str "Authorization",
          [str "token " ++ getToken w.gistToken w.githubToken w.flags.token]),
        (str "Accept", [str "application/json"]),
        (str "Content-Type", [str "application/json"]) ] ∧
    getToken w.gistToken w.githubToken w.flags.token ≠ [] ∧
    req.Method = (target w.flags.patch).1 ∧ req.URL = (target w.flags.patch).2 ∧
    (∃ evs files, collectFiles w = (evs, Except.ok files) ∧
      json.Marshal ⟨w.flags.description, w.flags.public, files⟩ = Except.ok req.Body) ∧
    ∀ (t g h : GoString) (req2 : Request),
      Event.send req2 ∈ (main (w.withTokens t g h)).events →
      req2.Method = req.Method ∧ req2.URL = req.URL ∧ req2.Body = req.Body := by
  obtain ⟨htok, evs, files, bts, hcf, hb, -, hreq, -⟩ := main_send_inv w req hsend
  subst hreq
  refine ⟨rfl, htok, rfl, rfl, ⟨evs, files, hcf, hb⟩, ?_⟩
  intro t g h req2 hsend2
  obtain ⟨-, evs2, files2, bts2, hcf2, hb2, -, hreq2, -⟩ := main_send_inv _ req2 hsend2
  subst hreq2
  rw [collectFiles_token, hcf] at hcf2
  simp only [Prod.mk.injEq, Except.ok.injEq] at hcf2
  obtain ⟨-, hfiles⟩ := hcf2
  subst hfiles
  have hb3 : json.Marshal ⟨w.flags.description, w.flags.public, files⟩ = Except.ok bts2 := hb2
  rw [hb] at hb3
  simp only [Except.ok.injEq] at hb3
  subst hb3
  exact ⟨rfl, rfl, rfl⟩

/-- Witness of C9: the request of the run on standard input, with the token
`secret`. -/
theorem request_headers_witness :
    (buildRequest (str "POST") (str "https://api.github.com/gists")
      (Json.object
        [ (str "description", Json.string []),
          (str "public", Json.bool false),
          (str "files", Json.object
            [(str "gist.txt", Json.object [(str "content", Json.string (str "hello"))])]) ])
      (str "secret")).Header =
      [ (str "Authorization", [str "token secret"]),
        (str "Accept", [str "application/json"]),
        (str "Content-Type", [str "application/json"]) ] :=
  (request_headers worldStdin _ (List.Mem.tail _ (List.Mem.tail _ (List.Mem.head _)))).1



/-! ## The payload -/

theorem validUTF8_cons (b0 : Nat) (rest : GoString) :
    validUTF8 (b0 :: rest) =
      (if b0 < 0x80 then validUTF8 rest
      else match rest with
        | [] => false
        | b1 :: rest1 =>
          if 0xC2 ≤ b0 ∧ b0 ≤ 0xDF then isCont b1 && validUTF8 rest1
          else match rest1 with
            | [] => false
            | b2 :: rest2 =>
              if 0xE0 ≤ b0 ∧ b0 ≤ 0xEF then
                decide (secondLo b0 ≤ b1 ∧ b1 ≤ secondHi b0) && isCont b2 && validUTF8 rest2
              else match rest2 with
                | [] => false
                | b3 :: rest3 =>
                  decide (0xF0 ≤ b0 ∧ b0 ≤ 0xF4) &&
                    decide (secondLo b0 ≤ b1 ∧ b1 ≤ secondHi b0) &&
                    isCont b2 && isCont b3 && validUTF8 rest3) := by
  rw [validUTF8.eq_def]
  rfl

theorem coerceLoop_valid (fuel : Nat) :
    ∀ s : GoString, validUTF8 s = true → s.length ≤ fuel → coerceLoop fuel s = s := by
  induction fuel with
  | zero =>
    intro s _ hl
    have : s = [] := List.length_eq_zero.mp (Nat.le_zero.mp hl)
    subst this
    rfl
  | succ n ih =>
    intro s hv hl
    match s, hv, hl with
    | [], _, _ => rfl
    | b0 :: rest, hv, hl =>
      simp only [List.length_cons] at hl
      rw [validUTF8_cons] at hv
      by_cases h1 : b0 < 0x80
      · have hv1 : validUTF8 rest = true := by simpa [h1] using hv
        have hr := ih rest hv1 (by omega)
        simp [coerceLoop, DecodeRuneInString, h1, RuneError, hr]
        omega
      · match rest, hv, hl with
        | [], hv, _ => simp [h1] at hv
        | b1 :: rest1, hv, hl =>
          simp only [List.length_cons] at hl
          by_cases h2 : 0xC2 ≤ b0 ∧ b0 ≤ 0xDF
          · have hv1 : isCont b1 = true ∧ validUTF8 rest1 = true := by
              simpa [h1, h2] using hv
            have hr := ih rest1 hv1.2 (by omega)
            have h3 : ¬ b0 < 0xC2 := by omega
            have h4 : b0 < 0xE0 := by omega
            simp [coerceLoop, DecodeRuneInString, h1, h3, h4, hv1.1, hr]
          · match rest1, hv, hl with
            | [], hv, _ => simp [h1, h2] at hv
            | b2 :: rest2, hv, hl =>
              simp only [List.length_cons] at hl
              by_cases h5 : 0xE0 ≤ b0 ∧ b0 ≤ 0xEF
              · have hv1 : (secondLo b0 ≤ b1 ∧ b1 ≤ secondHi b0) ∧ isCont b2 = true ∧
                    validUTF8 rest2 = true := by
                  simpa [h1, h2, h5, and_assoc] using hv
                have hr := ih rest2 hv1.2.2 (by omega)
                have h3 : ¬ b0 < 0xC2 := by omega
                have h4 : ¬ b0 < 0xE0 := by omega
                have h6 : b0 < 0xF0 := by omega
                simp [coerceLoop, DecodeRuneInString, h1, h3, h4, h6, hv1.1, hv1.2.1, hr]
              · match rest2, hv, hl with
                | [], hv, _ => simp [h1, h2, h5] at hv
                | b3 :: rest3, hv, hl =>
                  simp only [List.length_cons] at hl
                  have hv1 : (0xF0 ≤ b0 ∧ b0 ≤ 0xF4) ∧ (secondLo b0 ≤ b1 ∧ b1 ≤ secondHi b0) ∧
                      isCont b2 = true ∧ isCont b3 = true ∧ validUTF8 rest3 = true := by
                    simpa [h1, h2, h5, and_assoc] using hv
                  have hr := ih rest3 hv1.2.2.2.2 (by omega)
                  have h3 : ¬ b0 < 0xC2 := by omega
                  have h4 : ¬ b0 < 0xE0 := by omega
                  have h6 : ¬ b0 < 0xF0 := by omega
                  have h7 : b0 < 0xF5 := by omega
                  simp [coerceLoop, DecodeRuneInString, h1, h3, h4, h6, h7, hv1.2.1, hv1.2.2.1,
                    hv1.2.2.2.1, hr]

theorem decodeRune_size_pos (b : Nat) (rest : GoString) :
    1 ≤ (DecodeRuneInString (b :: rest)).2 := by
  unfold DecodeRuneInString
  repeat' split
  all_goals simp_all

/-- The fuel of `toValidUTF8`, the length of the string, is enough: more fuel
gives the same text, since every step consumes at least one byte. -/
theorem coerceLoop_fuel (fuel : Nat) :
    ∀ s : GoString, s.length ≤ fuel → coerceLoop (fuel + 1) s = coerceLoop fuel s := by
  induction fuel with
  | zero =>
    intro s hl
    have : s = [] := List.length_eq_zero.mp (Nat.le_zero.mp hl)
    subst this
    rfl
  | succ n ih =>
    intro s hl
    match s, hl with
    | [], _ => rfl
    | b :: rest, hl =>
      simp only [List.length_cons] at hl
      have hpos := decodeRune_size_pos b rest
      have h1 := ih rest (by omega)
      have h2 := ih ((b :: rest).drop (DecodeRuneInString (b :: rest)).2) (by
        simp only [List.length_drop, List.length_cons]
        omega)
      rw [coerceLoop, coerceLoop]
      simp only [h1, h2]

theorem toValidUTF8_fuel (s : GoString) (k : Nat) :
    coerceLoop (s.length + k) s = toValidUTF8 s := by
  induction k with
  | zero => rfl
  | succ n ih =>
    rw [← ih]
    exact coerceLoop_fuel (s.length + n) s (by omega)

theorem toValidUTF8_valid (s : GoString) (h : validUTF8 s = true) : toValidUTF8 s = s :=
  coerceLoop_valid s.length s h (Nat.le_refl _)

theorem GoMap.set_fresh {β : Type} (m : GoMap β) (k : GoString) (v : β)
    (h : k ∉ GoMap.keys m) : GoMap.set m k v = m ++ [(k, v)] := by
  induction m with
  | nil => rfl
  | cons kv rest ih =>
    obtain ⟨k1, v1⟩ := kv
    have h1 : ¬ k1 = k := by
      intro hc
      exact h (by simp [GoMap.keys, hc])
    have h2 : k ∉ GoMap.keys rest := by
      intro hc
      exact h (by simp only [GoMap.keys] at hc; simp [GoMap.keys, hc])
    simp [GoMap.set, h1, ih h2]

theorem GoMap.get?_eq_some_iff {β : Type} (m : GoMap β) (k : GoString) (v : β)
    (hm : (GoMap.keys m).Nodup) : GoMap.get? m k = some v ↔ (k, v) ∈ m := by
  induction m with
  | nil => simp [GoMap.get?]
  | cons kv rest ih =>
    obtain ⟨k1, v1⟩ := kv
    have hm2 : k1 ∉ GoMap.keys rest ∧ (GoMap.keys rest).Nodup := by
      simpa [GoMap.keys] using hm
    by_cases h : k1 = k
    · subst h
      have hno : (k1, v) ∉ rest := by
        intro hc
        exact hm2.1 (by simp only [GoMap.keys, List.mem_map]; exact ⟨(k1, v), hc, rfl⟩)
      simp [GoMap.get?, hno]
      exact eq_comm
    · have hne : ¬ k = k1 := fun hc => h hc.symm
      simp [GoMap.get?, h, hne, ih hm2.2]

theorem GoMap.get?_perm {β : Type} (m m2 : GoMap β) (hp : List.Perm m2 m)
    (hm : (GoMap.keys m).Nodup) (k : GoString) : GoMap.get? m2 k = GoMap.get? m k := by
  have hm2 : (GoMap.keys m2).Nodup := (List.Perm.nodup_iff (hp.map Prod.fst)).2 hm
  apply Option.ext
  intro v
  simp only [Option.mem_def]
  rw [GoMap.get?_eq_some_iff m2 k v hm2, GoMap.get?_eq_some_iff m k v hm]
  exact hp.mem_iff

theorem sortKeys_perm {β : Type} (m : GoMap β) : List.Perm (sortKeys m) m :=
  List.perm_insertionSort _ m

theorem decodeFile_marshalFile (f : File) (h : validUTF8 f.Content = true) :
    decodeFile (marshalFile f) = some f := by
  simp [decodeFile, marshalFile, marshalString, toValidUTF8_valid _ h]

theorem decodeFilesInto_marshal (l acc : GoMap File)
    (hv : ∀ kv ∈ l, validUTF8 kv.1 = true ∧ validUTF8 kv.2.Content = true)
    (hnd : (GoMap.keys (acc ++ l)).Nodup) :
    decodeFilesInto acc (l.map (fun kv => (toValidUTF8 kv.1, marshalFile kv.2))) =
      some (acc ++ l) := by
  induction l generalizing acc with
  | nil => simp [decodeFilesInto]
  | cons kv rest ih =>
    obtain ⟨hk, hc⟩ := hv kv (by simp)
    have hfresh : kv.1 ∉ GoMap.keys acc := by
      intro hmem
      simp only [GoMap.keys, List.map_append, List.map_cons] at hnd hmem
      have := (List.nodup_append.1 hnd).2.2
      exact this hmem (by simp)
    have hnd2 : (GoMap.keys ((acc ++ [kv]) ++ rest)).Nodup := by
      simpa using hnd
    have hrest := ih (acc ++ [kv]) (fun x hx => hv x (by simp [hx])) hnd2
    simp only [List.map_cons, decodeFilesInto, decodeFile_marshalFile _ hc,
      toValidUTF8_valid _ hk, GoMap.set_fresh _ _ _ hfresh]
    rw [hrest]
    simp

/-- C10, as stated, fails: standard input that is the single byte `0xFF`, which
is not valid UTF-8, gives a files mapping with this content, and the mapping
is marshalled with the content U+FFFD (the bytes `EF BF BD`) in its place, so
decoding the body does not recover the files mapping. -/
theorem marshal_invalid_utf8 :
    (collectFiles worldBinary).2 = Except.ok [(str "gist.txt", ⟨[0xFF]⟩)] ∧
    json.Marshal ⟨[], false, [(str "gist.txt", ⟨[0xFF]⟩)]⟩ =
      Except.ok (Json.object
        [ (str "description", Json.string []),
          (str "public", Json.bool false),
          (str "files", Json.object
            [(str "gist.txt",
              Json.object [(str "content", Json.string [0xEF, 0xBF, 0xBD])])]) ]) ∧
    decodePostData (Json.object
        [ (str "description", Json.string []),
          (str "public", Json.bool false),
          (str "files", Json.object
            [(str "gist.txt",
              Json.object [(str "content", Json.string [0xEF, 0xBF, 0xBD])])]) ]) =
      some ⟨[], false, [(str "gist.txt", ⟨[0xEF, 0xBF, 0xBD]⟩)]⟩ ∧
    (⟨[], false, [(str "gist.txt", ⟨[0xEF, 0xBF, 0xBD]⟩)]⟩ : PostData) ≠
      ⟨[], false, [(str "gist.txt", ⟨[0xFF]⟩)]⟩ :=
  ⟨rfl, rfl, rfl, by decide⟩

/-- C10, amended: for a description `d`, a flag `v` and a files mapping `m` whose
description, file names and contents are valid UTF-8, the body is the JSON
object with exactly the fields `description` (the string `d`), `public` (the
boolean `v`) and `files`, an object with one member per key of `m`, each an
object with exactly the field `content` holding the content of the file;
decoding the body recovers `d`, `v` and the bindings of `m`. -/
theorem marshal_decode (d : GoString) (v : Bool) (m : GoMap File)
    (hm : (GoMap.keys m).Nodup) (hd : validUTF8 d = true)
    (hf : ∀ kv ∈ m, validUTF8 kv.1 = true ∧ validUTF8 kv.2.Content = true) :
    json.Marshal ⟨d, v, m⟩ =
      Except.ok (Json.object
        [ (str "description", Json.string d),
          (str "public", Json.bool v),
          (str "files", Json.object ((sortKeys m).map (fun kv =>
            (kv.1, Json.object [(str "content", Json.string kv.2.Content)])))) ]) ∧
    List.Perm (sortKeys m) m ∧
    decodePostData (Json.object
        [ (str "description", Json.string d),
          (str "public", Json.bool v),
          (str "files", Json.object ((sortKeys m).map (fun kv =>
            (kv.1, Json.object [(str "content", Json.string kv.2.Content)])))) ]) =
      some ⟨d, v, sortKeys m⟩ ∧
    ∀ k, GoMap.get? (sortKeys m) k = GoMap.get? m k := by
  have hperm := sortKeys_perm m
  have hsv : ∀ kv ∈ sortKeys m, validUTF8 kv.1 = true ∧ validUTF8 kv.2.Content = true :=
    fun kv hkv => hf kv (hperm.mem_iff.1 hkv)
  have hsn : (GoMap.keys (sortKeys m)).Nodup :=
    (List.Perm.nodup_iff (hperm.map Prod.fst)).2 hm
  have hmap : (sortKeys m).map (fun kv => (toValidUTF8 kv.1, marshalFile kv.2)) =
      (sortKeys m).map (fun kv =>
        (kv.1, Json.object [(str "content", Json.string kv.2.Content)])) := by
    apply List.map_congr_left
    intro kv hkv
    obtain ⟨h1, h2⟩ := hsv kv hkv
    simp [marshalFile, marshalString, toValidUTF8_valid _ h1, toValidUTF8_valid _ h2]
  have hdec := decodeFilesInto_marshal (sortKeys m) [] hsv (by simpa using hsn)
  rw [hmap] at hdec
  refine ⟨?_, hperm, ?_, fun k => GoMap.get?_perm m (sortKeys m) hperm hm k⟩
  · simp [json.Marshal, marshalString, marshalFiles, toValidUTF8_valid _ hd, hmap]
  · simp [decodePostData, hdec]

/-- Witness of C10, amended: a payload with two files, given out of order. -/
theorem marshal_decode_witness :
    decodePostData (Json.object
        [ (str "description", Json.string (str "demo")),
          (str "public", Json.bool true),
          (str "files", Json.object
            [ (str "a.txt", Json.object [(str "content", Json.string (str "one"))]),
              (str "b.txt", Json.object [(str "content", Json.string (str "two"))]) ]) ]) =
      some ⟨str "demo", true, [(str "a.txt", ⟨str "one"⟩), (str "b.txt", ⟨str "two"⟩)]⟩ :=
  (marshal_decode (str "demo") true
    [(str "b.txt", ⟨str "two"⟩), (str "a.txt", ⟨str "one"⟩)]
    (by decide) (by decide) (by decide)).2.2.1

end Gist
